import Mathlib

/-!
Verification of the launch-coordination and progress-reporting core of the
TauZip desktop archive utility (`src/src-tauri/src/gui.rs`).

The Rust source is shallowly embedded: the shared counters (`GuiState`) become
a record of naturals, the synchronous part of each launch handler becomes a
pure state transformer that also returns a description of the background task
it spawns, background-task completions and watcher polls become explicit
events, and the Tauri commands become pure functions parameterised by their
external collaborators (the codec library, the process counter, the
filesystem).  `f64` progress arithmetic is modelled by exact rationals.
-/

namespace TauZip

/-- The shared per-session counters (`GuiState` in the Rust crate root):
`window_count`, `item_count` (items delivered), `arg_received`
(items expected total) and the UI-settable `count_now`. -/
structure GuiCounters where
  window_count : Nat
  item_count : Nat
  arg_received : Nat
  count_now : Nat
deriving DecidableEq, Repr

/-- The item list assembled at gui.rs:321-322 / 401-402: the baseline
`file_strings2` extended with `argv` after `skip(2)`. -/
def launchItems (baseline argv : List String) : List String :=
  baseline ++ argv.drop 2

/-- Description of the background thread spawned by `run_app` /
`run_decom_app` (gui.rs:343-377 / 423-451): it captures the assembled item
list, its length `c`, and whether it is the decompression variant (which
additionally emits `set-mode` before the item list). -/
structure BgTask where
  decom : Bool
  items : List String
  c : Nat
deriving DecidableEq, Repr

/-- Synchronous part of `run_app` (gui.rs:317-343): assemble the item list,
add its length `c` to `arg_received` (gui.rs:339, under the mutex, before
`thread::spawn`), and return the state as it is at the moment the background
thread is spawned together with the task description. -/
def run_app (baseline argv : List String) (g : GuiCounters) : GuiCounters × BgTask :=
  let items := launchItems baseline argv
  let c := items.length
  (⟨g.window_count, g.item_count, g.arg_received + c, g.count_now⟩, ⟨false, items, c⟩)

/-- Synchronous part of `run_decom_app` (gui.rs:397-423): identical counter
effect, decompression-flavoured background task. -/
def run_decom_app (baseline argv : List String) (g : GuiCounters) : GuiCounters × BgTask :=
  let items := launchItems baseline argv
  let c := items.length
  (⟨g.window_count, g.item_count, g.arg_received + c, g.count_now⟩, ⟨true, items, c⟩)

/-- Effect of the background thread of `run_app` on the counters once its
`files-selected` emission resolves (gui.rs:354-366): on success it adds the
captured `c` to `item_count`; on failure it changes nothing. -/
def run_app_bg (t : BgTask) (emitOk : Bool) (g : GuiCounters) : GuiCounters :=
  if emitOk then ⟨g.window_count, g.item_count + t.c, g.arg_received, g.count_now⟩ else g

/-- Effect of the background thread of `run_decom_app` on the counters once
its `archives-selected` emission resolves (gui.rs:438-450); the preceding
`set-mode` emission touches no counter, so the effect matches `run_app_bg`. -/
def run_decom_app_bg (t : BgTask) (emitOk : Bool) (g : GuiCounters) : GuiCounters :=
  if emitOk then ⟨g.window_count, g.item_count + t.c, g.arg_received, g.count_now⟩ else g

/-- One OS launch as handled by the single-instance callback: a decompression
flag, the baseline item list and the raw `argv`. -/
def Launch := Bool × List String × List String

/-- Dispatch a launch to `run_decom_app` or `run_app`. -/
def handle_launch (l : Launch) (g : GuiCounters) : GuiCounters × BgTask :=
  if l.1 then run_decom_app l.2.1 l.2.2 g else run_app l.2.1 l.2.2 g

/-- The item-list length a launch contributes. -/
def launchLen (l : Launch) : Nat := (launchItems l.2.1 l.2.2).length

/-- Run only the synchronous parts of a sequence of launches. -/
def sessionSync (ls : List Launch) (g : GuiCounters) : GuiCounters :=
  ls.foldl (fun g l => (handle_launch l g).1) g

/-- An observable event of one session: a launch's synchronous handling, or
the completion (with emission success bit) of the `j`-th still-pending
background task. -/
inductive SessEvent where
  | launch (l : Launch)
  | deliver (j : Nat) (emitOk : Bool)

/-- Session state: the shared counters plus the spawned background tasks that
have not yet run to completion. -/
structure SessState where
  gui : GuiCounters
  pending : List BgTask

/-- Interleaving semantics: a launch event applies the synchronous handler and
queues its background task; a deliver event removes a pending task and applies
its background effect.  A deliver with an out-of-range index is a no-op. -/
def sessStep (s : SessState) : SessEvent → SessState
  | .launch l =>
      let p := handle_launch l s.gui
      ⟨p.1, s.pending ++ [p.2]⟩
  | .deliver j emitOk =>
      if h : j < s.pending.length then
        let t := s.pending.get ⟨j, h⟩
        ⟨(if t.decom then run_decom_app_bg else run_app_bg) t emitOk s.gui,
          s.pending.eraseIdx j⟩
      else s

/-- A whole session run from the all-zero initial state. -/
def runSession (evs : List SessEvent) : SessState :=
  evs.foldl sessStep ⟨⟨0, 0, 0, 0⟩, []⟩

lemma handle_launch_fst (l : Launch) (g : GuiCounters) :
    (handle_launch l g).1 =
      ⟨g.window_count, g.item_count, g.arg_received + launchLen l, g.count_now⟩ := by
  cases l with
  | mk d r =>
    cases d <;> simp [handle_launch, run_app, run_decom_app, launchLen]

lemma handle_launch_task_c (l : Launch) (g : GuiCounters) :
    (handle_launch l g).2.c = launchLen l := by
  cases l with
  | mk d r =>
    cases d <;> simp [handle_launch, run_app, run_decom_app, launchLen]

lemma sessionSync_arg (ls : List Launch) (g : GuiCounters) :
    (sessionSync ls g).arg_received = g.arg_received + (ls.map launchLen).sum := by
  induction ls generalizing g with
  | nil => simp [sessionSync]
  | cons l ls ih =>
    have h := ih ((handle_launch l g).1)
    simp only [sessionSync, List.foldl_cons] at h ⊢
    rw [h, handle_launch_fst]
    simp [Nat.add_assoc]

lemma run_app_bg_arg (t : BgTask) (emitOk : Bool) (g : GuiCounters) :
    (run_app_bg t emitOk g).arg_received = g.arg_received := by
  cases emitOk <;> simp [run_app_bg]

lemma run_decom_app_bg_arg (t : BgTask) (emitOk : Bool) (g : GuiCounters) :
    (run_decom_app_bg t emitOk g).arg_received = g.arg_received := by
  cases emitOk <;> simp [run_decom_app_bg]

/-- C1: within one session, `items_expected_total` (the `arg_received`
counter) after a sequence of launches handled by `run_app` / `run_decom_app`
equals its initial value plus the sum of each launch's item-list length
(baseline items plus `argv` with the first two entries dropped); the result is
invariant under reordering of the launches; each launch's increment is already
present in the state returned at the moment its background task is spawned;
and the background tasks themselves never modify `arg_received`. -/
theorem arg_received_totals_all_launches (ls ls2 : List Launch) (g : GuiCounters)
    (hperm : ls.Perm ls2) :
    (sessionSync ls g).arg_received = g.arg_received + (ls.map launchLen).sum ∧
    (sessionSync ls2 g).arg_received = (sessionSync ls g).arg_received ∧
    (∀ l g2, ((handle_launch l g2).1).arg_received = g2.arg_received + launchLen l) ∧
    (∀ t emitOk g2, (run_app_bg t emitOk g2).arg_received = g2.arg_received ∧
        (run_decom_app_bg t emitOk g2).arg_received = g2.arg_received) := by
  refine ⟨sessionSync_arg ls g, ?_, ?_, ?_⟩
  · rw [sessionSync_arg, sessionSync_arg, (hperm.map launchLen).sum_eq]
  · intro l g2; rw [handle_launch_fst]
  · intro t emitOk g2; exact ⟨run_app_bg_arg t emitOk g2, run_decom_app_bg_arg t emitOk g2⟩

/-- Witness for C1 at a concrete pair of launch sequences (two launches in
the two possible orders). -/
theorem arg_received_totals_all_launches_witness :
    ([((false : Bool), (["a"], ["exe", "reserved", "f1"])),
      ((true : Bool), (([] : List String), ["exe", "reserved", "f2", "f3"]))].Perm
     [((true : Bool), (([] : List String), ["exe", "reserved", "f2", "f3"])),
      ((false : Bool), (["a"], ["exe", "reserved", "f1"]))]) ∧
    (sessionSync [((false : Bool), (["a"], ["exe", "reserved", "f1"])),
      ((true : Bool), (([] : List String), ["exe", "reserved", "f2", "f3"]))]
        ⟨0, 0, 0, 0⟩).arg_received =
      (⟨0, 0, 0, 0⟩ : GuiCounters).arg_received +
        ([((false : Bool), (["a"], ["exe", "reserved", "f1"])),
          ((true : Bool), (([] : List String), ["exe", "reserved", "f2", "f3"]))].map
            launchLen).sum :=
  ⟨List.Perm.swap _ _ _,
    (arg_received_totals_all_launches _ _ ⟨0, 0, 0, 0⟩ (List.Perm.swap _ _ _)).1⟩

/-- The session invariant behind C10: delivered items plus the contributions
of all still-pending background tasks never exceed the expected total. -/
def sessInv (s : SessState) : Prop :=
  s.gui.item_count + (s.pending.map BgTask.c).sum ≤ s.gui.arg_received

lemma sum_map_eraseIdx (l : List BgTask) (j : Nat) (h : j < l.length) :
    ((l.eraseIdx j).map BgTask.c).sum + (l.get ⟨j, h⟩).c = (l.map BgTask.c).sum := by
  induction l generalizing j with
  | nil => simp at h
  | cons a l ih =>
    cases j with
    | zero => simp [List.eraseIdx, Nat.add_comm]
    | succ j =>
      have hj : j < l.length := by simpa using h
      have := ih j hj
      simp only [List.eraseIdx, List.map_cons, List.sum_cons, List.get_cons_succ]
      omega

lemma sessInv_step (s : SessState) (e : SessEvent) (hs : sessInv s) :
    sessInv (sessStep s e) := by
  cases e with
  | launch l =>
    simp only [sessInv, sessStep, handle_launch_fst, handle_launch_task_c,
      List.map_append, List.sum_append, List.map_cons, List.sum_cons,
      List.map_nil, List.sum_nil] at hs ⊢
    omega
  | deliver j emitOk =>
    simp only [sessInv, sessStep]
    split
    · next h =>
      have herase := sum_map_eraseIdx s.pending j h
      cases hd : (s.pending.get ⟨j, h⟩).decom <;>
        cases emitOk <;>
          simp only [sessInv] at hs <;>
            simp_all [run_app_bg, run_decom_app_bg] <;> omega
    · exact hs

/-- C10: at every point in a session (i.e. after any sequence of launch and
background-delivery events, interleaved arbitrarily), `items_delivered`
(`item_count`) is at most `items_expected_total` (`arg_received`): each launch
adds its item-list length to `arg_received` synchronously before its task is
queued, and a task adds exactly that same amount to `item_count` only when its
emission succeeded. -/
theorem items_delivered_le_expected (evs : List SessEvent) :
    (runSession evs).gui.item_count ≤ (runSession evs).gui.arg_received := by
  have main : ∀ (evs : List SessEvent) (s : SessState), sessInv s →
      sessInv (evs.foldl sessStep s) := by
    intro evs
    induction evs with
    | nil => intro s hs; exact hs
    | cons e evs ih =>
      intro s hs
      exact ih (sessStep s e) (sessInv_step s e hs)
  have h0 : sessInv ⟨⟨0, 0, 0, 0⟩, []⟩ := by simp [sessInv]
  have h := main evs _ h0
  simp only [sessInv] at h
  exact le_trans (Nat.le_add_right _ _) h

/-- The readiness test polled by the watcher loop of
`run_compression_dialog` (gui.rs:520): `total_arg == itemc && itemc != 0`,
where `itemc` is `item_count` (items delivered) and `total_arg` is
`arg_received` (items expected). -/
def readyCondCompress (itemc total_arg : Nat) : Bool :=
  total_arg == itemc && itemc != 0

/-- The readiness test polled by the watcher loop of
`run_decompression_dialog` (gui.rs:596): `total_arg == itemc && total_arg != 0`. -/
def readyCondDecom (itemc total_arg : Nat) : Bool :=
  total_arg == itemc && total_arg != 0

/-- The watcher loop (gui.rs:509-525 / 585-601) run over the finite sequence
of `(item_count, arg_received)` pairs its successive polls observe: it returns
how many `enable-ok` emissions it makes and how many polls it consumes before
breaking out of the loop.  If no poll satisfies the condition it consumes the
whole sequence without emitting (the loop would keep running). -/
def watcherRun (cond : Nat → Nat → Bool) : List (Nat × Nat) → Nat × Nat
  | [] => (0, 0)
  | p :: rest =>
    if cond p.1 p.2 then (1, 1)
    else ((watcherRun cond rest).1, (watcherRun cond rest).2 + 1)

lemma watcherRun_eq_findIdx (cond : Nat → Nat → Bool) (polls : List (Nat × Nat)) :
    watcherRun cond polls =
      (match polls.findIdx? (fun p => cond p.1 p.2) with
       | none => (0, polls.length)
       | some i => (1, i + 1)) := by
  induction polls with
  | nil => simp [watcherRun]
  | cons p rest ih =>
    by_cases h : cond p.1 p.2
    · simp [watcherRun, h, List.findIdx?_cons]
    · simp only [watcherRun, h, if_false, ih, List.findIdx?_cons, Bool.false_eq_true,
        List.length_cons]
      cases hf : rest.findIdx? (fun p => cond p.1 p.2) <;> simp [hf]

/-- C2: within one session the readiness watcher emits `enable-ok` at most
once; it emits exactly when some poll observes the readiness condition, it
stops at the first such poll (consuming `i + 1` polls and never re-arming),
and otherwise it consumes every poll without emitting; the condition holds
exactly when `items_delivered` equals `items_expected_total` and both are
non-zero, and the compression- and decompression-dialog conditions agree. -/
theorem enable_ok_fires_at_most_once (polls : List (Nat × Nat)) :
    ((watcherRun readyCondCompress polls).1 ≤ 1 ∧
     (watcherRun readyCondDecom polls).1 ≤ 1) ∧
    (watcherRun readyCondCompress polls =
      (match polls.findIdx? (fun p => readyCondCompress p.1 p.2) with
       | none => (0, polls.length)
       | some i => (1, i + 1))) ∧
    (watcherRun readyCondDecom polls =
      (match polls.findIdx? (fun p => readyCondDecom p.1 p.2) with
       | none => (0, polls.length)
       | some i => (1, i + 1))) ∧
    (∀ itemc total_arg, readyCondDecom itemc total_arg = readyCondCompress itemc total_arg) ∧
    (∀ itemc total_arg, readyCondCompress itemc total_arg = true ↔
        (total_arg = itemc ∧ 0 < itemc ∧ 0 < total_arg)) := by
  have hcond : ∀ itemc total_arg,
      readyCondDecom itemc total_arg = readyCondCompress itemc total_arg := by
    intro a b
    by_cases h : b = a
    · subst h; rfl
    · have h1 : (b == a) = false := by simpa using h
      simp [readyCondDecom, readyCondCompress, h1]
  refine ⟨⟨?_, ?_⟩, watcherRun_eq_findIdx _ polls, watcherRun_eq_findIdx _ polls, hcond, ?_⟩
  · rw [watcherRun_eq_findIdx]
    split <;> first | exact Nat.zero_le 1 | exact le_refl 1
  · rw [watcherRun_eq_findIdx]
    split <;> first | exact Nat.zero_le 1 | exact le_refl 1
  · intro a b
    simp only [readyCondCompress, Bool.and_eq_true, beq_iff_eq, bne_iff_ne, ne_eq]
    omega

/-- Model of `std::path::Path::parent` for Unix-style path strings without
trailing separators (a collaborator of gui.rs:99-100 and gui.rs:614): the path
up to the last `/`-separated component, `some ""` for a bare file name, and
`none` for the root and the empty path. -/
def pathParent (p : String) : Option String :=
  let afterSlash := p.data.reverse.dropWhile (fun c => c ≠ '/')
  if p.data = [] then none
  else if afterSlash = [] then some ""
  else if p.data = ['/'] then none
  else if afterSlash.tail = [] then some "/"
  else some (String.mk afterSlash.tail.reverse)

/-- Model of `std::path::Path::join` with a relative right-hand side: append
with a `/` separator, degenerating gracefully for an empty or root parent. -/
def joinPath (p r : String) : String :=
  if p = "" then r
  else if p.data.getLast? = some '/' then p ++ r
  else p ++ "/" ++ r

/-- `parent().unwrap_or_else(|| Path::new("."))` as used at gui.rs:99-101 and
gui.rs:614. -/
def parentOrDot (p : String) : String :=
  (pathParent p).getD "."

/-- Model of `Path::is_absolute` on Unix (gui.rs:93): the path begins with
the separator. -/
def isAbsolute (p : String) : Bool :=
  p.data.head? = some '/'

/-- The destination-resolution step of `compress_files_command`
(gui.rs:93-106): an absolute `outputfile` is used verbatim; a relative one is
joined to the parent directory of the first source, or used as-is when the
source list is empty. -/
def resolveOutputPath (files : List String) (outputfile : String) : String :=
  if isAbsolute outputfile then outputfile
  else
    match files with
    | [] => outputfile
    | f :: _ => joinPath (parentOrDot f) outputfile

/-- The compression kinds of the embedded `CompressionType` enum
(declared in the crate's compression module, matched at gui.rs:78-87). -/
inductive CompressionType where
  | Zip | TarGz | TarBr | Gz | Br | Gzip | Bzip2
deriving DecidableEq, Repr

/-- The `compressiontype` string match of gui.rs:78-87 and gui.rs:235-244. -/
def parseCompressionType (s : String) : Option CompressionType :=
  if s = "Zip" then some .Zip
  else if s = "TarGz" then some .TarGz
  else if s = "TarBr" then some .TarBr
  else if s = "Gz" then some .Gz
  else if s = "Br" then some .Br
  else if s = "Gzip" then some .Gzip
  else if s = "Bzip2" then some .Bzip2
  else none

/-- `get_compression_types` (gui.rs:219-230): the supported kind tags. -/
def get_compression_types : List String :=
  ["Zip", "TarGz", "TarBr", "Gz", "Br", "Gzip", "Bzip2"]

/-- Modelled from the spec: `CompressionType::supports_multiple_files`, which
lives in the crate's compression module, absent from the sources; per the
spec, Gz supports only a single file while the container formats (Zip and the
tar-based kinds) accept several inputs, and the remaining single-stream codecs
behave like Gz. -/
def CompressionType.supports_multiple_files : CompressionType → Bool
  | .Zip => true
  | .TarGz => true
  | .TarBr => true
  | _ => false

/-- `validate_compression_type` (gui.rs:232-250): parse the kind string
(erroring on unknown tags), then report `false` exactly when the kind does not
support multiple files and more than one source was given. -/
def validate_compression_type (files : List String) (compressiontype : String) :
    Except String Bool :=
  match parseCompressionType compressiontype with
  | none => .error ("Unsupported compression type: " ++ compressiontype)
  | some ct =>
    if !ct.supports_multiple_files && files.length > 1 then .ok false else .ok true

/-- Outcome of one `compress_files_command` call: the command's
result and whether the codec collaborator (the only filesystem-writing step)
was invoked. -/
structure CompressOutcome where
  result : Except String String
  codec_called : Bool
deriving Repr

/-- `compress_files_command` (gui.rs:61-143), parameterised by its external
collaborators: `processCount` is `count_processes_by_name("TauZip.exe")` and
`codec` is `compress_files_with_progress` reduced to its success-or-error
outcome (progress events carry no decision logic and are omitted).  Stages in
source order: multiple-instance rejection (gui.rs:72-75), kind parsing
(gui.rs:78-87), destination resolution (gui.rs:93-106), codec delegation
(gui.rs:113-128). -/
def compress_files_command (processCount : Nat)
    (codec : List String → String → CompressionType → Except String Unit)
    (files : List String) (outputfile compressiontype : String) : CompressOutcome :=
  if processCount > 1 then
    ⟨.error "multiple instance of apps detected", false⟩
  else
    match parseCompressionType compressiontype with
    | none => ⟨.error ("Unsupported compression type: " ++ compressiontype), false⟩
    | some ct =>
      let output_path := resolveOutputPath files outputfile
      match codec files output_path ct with
      | .ok _ => ⟨.ok ("Files compressed successfully to: " ++ output_path), true⟩
      | .error e => ⟨.error ("Compression failed: " ++ e), true⟩

/-- C6: for a compress invocation with a non-empty source list, an absolute
destination is used verbatim and a relative destination is joined to the
parent directory of the first source; in particular `"out.zip"` with sources
`["/a/b/1.txt", "/a/b/2.txt"]` resolves to `"/a/b/out.zip"`. -/
theorem compress_destination_resolution (f : String) (fs : List String) (out : String) :
    (isAbsolute out = true → resolveOutputPath (f :: fs) out = out) ∧
    (isAbsolute out = false →
      resolveOutputPath (f :: fs) out = joinPath (parentOrDot f) out) ∧
    resolveOutputPath ["/a/b/1.txt", "/a/b/2.txt"] "out.zip" = "/a/b/out.zip" := by
  refine ⟨?_, ?_, by decide⟩
  · intro h; simp [resolveOutputPath, h]
  · intro h; simp [resolveOutputPath, h]

/-- Witness for C6 at concrete inputs. -/
theorem compress_destination_resolution_witness :
    isAbsolute "out.zip" = false ∧
    resolveOutputPath ["/a/b/1.txt", "/a/b/2.txt"] "out.zip" =
      joinPath (parentOrDot "/a/b/1.txt") "out.zip" :=
  ⟨by decide,
    (compress_destination_resolution "/a/b/1.txt" ["/a/b/2.txt"] "out.zip").2.1 (by decide)⟩

lemma parseCompressionType_eq_none_iff (kind : String) :
    parseCompressionType kind = none ↔ kind ∉ get_compression_types := by
  simp only [parseCompressionType, get_compression_types, List.mem_cons,
    List.not_mem_nil, or_false]
  split <;> rename_i h1
  · simp [h1]
  · split <;> rename_i h2
    · simp [h2]
    · split <;> rename_i h3
      · simp [h3]
      · split <;> rename_i h4
        · simp [h4]
        · split <;> rename_i h5
          · simp [h5]
          · split <;> rename_i h6
            · simp [h6]
            · split <;> rename_i h7
              · simp [h7]
              · simp [h1, h2, h3, h4, h5, h6, h7]

/-- C7: a compress invocation (in the normal single-instance situation) whose
kind string is outside the supported set returns the unsupported-kind error
naming the rejected kind, and the codec collaborator is never invoked. -/
theorem unsupported_kind_rejected_before_codec (processCount : Nat)
    (codec : List String → String → CompressionType → Except String Unit)
    (files : List String) (outputfile compressiontype : String)
    (hcount : processCount ≤ 1)
    (hkind : compressiontype ∉ get_compression_types) :
    compress_files_command processCount codec files outputfile compressiontype =
      ⟨.error ("Unsupported compression type: " ++ compressiontype), false⟩ := by
  have hnone : parseCompressionType compressiontype = none :=
    (parseCompressionType_eq_none_iff compressiontype).mpr hkind
  have hc : ¬ processCount > 1 := by omega
  simp [compress_files_command, hc, hnone]

/-- Witness for C7 at concrete inputs. -/
theorem unsupported_kind_rejected_before_codec_witness :
    (1 : Nat) ≤ 1 ∧ "Rar" ∉ get_compression_types ∧
    compress_files_command 1 (fun _ _ _ => .ok ()) ["/a/x.txt"] "out.rar" "Rar" =
      ⟨.error ("Unsupported compression type: " ++ "Rar"), false⟩ :=
  ⟨le_refl 1, by decide,
    unsupported_kind_rejected_before_codec 1 (fun _ _ _ => .ok ()) ["/a/x.txt"]
      "out.rar" "Rar" (le_refl 1) (by decide)⟩

/-- C8: for a kind string that parses to a supported kind, the validate
command returns `Ok false` exactly when the kind does not support multiple
inputs and more than one source is given, and `Ok true` otherwise; a kind
string outside the supported set yields an error instead of a boolean;
concretely, two sources with `"Gz"` give `Ok false` and one source with
`"Zip"` gives `Ok true`. -/
theorem validate_kind_multi_input_rule (files : List String)
    (compressiontype : String) (ct : CompressionType)
    (hparse : parseCompressionType compressiontype = some ct) :
    (validate_compression_type files compressiontype = .ok false ↔
      (ct.supports_multiple_files = false ∧ 1 < files.length)) ∧
    (validate_compression_type files compressiontype = .ok true ↔
      ¬ (ct.supports_multiple_files = false ∧ 1 < files.length)) ∧
    (∀ k files2, parseCompressionType k = none →
      validate_compression_type files2 k =
        .error ("Unsupported compression type: " ++ k)) ∧
    validate_compression_type ["a", "b"] "Gz" = .ok false ∧
    validate_compression_type ["a"] "Zip" = .ok true := by
  refine ⟨?_, ?_, ?_, rfl, rfl⟩
  · rw [validate_compression_type, hparse]
    by_cases hm : ct.supports_multiple_files <;> by_cases hl : 1 < files.length <;>
      simp [hm, hl]
  · rw [validate_compression_type, hparse]
    by_cases hm : ct.supports_multiple_files <;> by_cases hl : 1 < files.length <;>
      simp [hm, hl]
  · intro k files2 hk
    rw [validate_compression_type, hk]

/-- Witness for C8 at concrete inputs. -/
theorem validate_kind_multi_input_rule_witness :
    parseCompressionType "Gz" = some CompressionType.Gz ∧
    validate_compression_type ["a", "b"] "Gz" = .ok false :=
  ⟨rfl, (validate_kind_multi_input_rule ["a", "b"] "Gz" CompressionType.Gz
    (by decide)).2.2.2.1⟩

/-- C9: a compress invocation made while more than one instance of the
application is detected running is rejected with the multiple-instances error
and the codec collaborator (the only filesystem-writing step) is never
invoked, whatever the kind string, destination and sources — so the rejection
precedes kind validation, destination resolution and codec delegation. -/
theorem multiple_instances_rejected_before_everything (processCount : Nat)
    (codec : List String → String → CompressionType → Except String Unit)
    (files : List String) (outputfile compressiontype : String)
    (hcount : 1 < processCount) :
    compress_files_command processCount codec files outputfile compressiontype =
      ⟨.error "multiple instance of apps detected", false⟩ := by
  simp [compress_files_command, hcount]

/-- Witness for C9 at concrete inputs (note the kind string is even
invalid: the instance check still wins). -/
theorem multiple_instances_rejected_before_everything_witness :
    (1 : Nat) < 2 ∧
    compress_files_command 2 (fun _ _ _ => .ok ()) ["/a/x.txt"] "out.zip" "NotAKind" =
      ⟨.error "multiple instance of apps detected", false⟩ :=
  ⟨by decide,
    multiple_instances_rejected_before_everything 2 (fun _ _ _ => .ok ())
      ["/a/x.txt"] "out.zip" "NotAKind" (by decide)⟩

/-- The batch-abort error message built at gui.rs:192:
`Failed to decompress '<source>': <reason>`. -/
def decompressErrorMsg (source reason : String) : String :=
  "Failed to decompress '" ++ source ++ "': " ++ reason

/-- The per-file loop of `decompress_files_command` (gui.rs:157-197),
parameterised by the codec collaborator `decompress_files_with_progress`
reduced to its per-source success-or-error outcome (the output directory each
iteration derives and the progress events it emits carry no control flow).
Returns the list of sources actually handed to the codec, in order, together
with the command's outcome (on success, the number of archives processed —
the length of `decompressed_to`). -/
def decompressLoop (codec : String → Except String Unit) :
    List String → List String × Except String Nat
  | [] => ([], .ok 0)
  | f :: rest =>
    match codec f with
    | .ok _ =>
      let r := decompressLoop codec rest
      (f :: r.1, r.2.map (· + 1))
    | .error e => ([f], .error (decompressErrorMsg f e))

/-- C4: if the codec collaborator fails on one source of a decompress batch
(all earlier sources succeeding), the command returns immediately with an
error naming that source and the failure reason, and no later source is
attempted: the codec sees exactly the sources up to and including the failing
one. -/
theorem decompress_fail_fast (codec : String → Except String Unit)
    (pre post : List String) (f e : String)
    (hpre : ∀ g ∈ pre, codec g = .ok ())
    (hf : codec f = .error e) :
    decompressLoop codec (pre ++ f :: post) =
      (pre ++ [f], .error (decompressErrorMsg f e)) := by
  induction pre with
  | nil =>
    simp only [List.nil_append, decompressLoop, hf]
  | cons g pre ih =>
    have hg : codec g = .ok () := hpre g (List.mem_cons_self g pre)
    have ih2 := ih (fun x hx => hpre x (List.mem_cons_of_mem g hx))
    simp [decompressLoop, hg, ih2, Except.map]

/-- Witness for C4: three sources, the codec failing on the middle one; only
the first two are attempted. -/
theorem decompress_fail_fast_witness :
    (∀ g ∈ ["a"], (fun g => if g = "b" then Except.error "bad header"
        else Except.ok ()) g = Except.ok ()) ∧
    (fun g => if g = "b" then Except.error "bad header" else Except.ok ()) "b" =
      Except.error "bad header" ∧
    decompressLoop (fun g => if g = "b" then Except.error "bad header"
        else Except.ok ()) (["a"] ++ "b" :: ["c"]) =
      (["a"] ++ ["b"], .error (decompressErrorMsg "b" "bad header")) :=
  ⟨by intro g hg; simp only [List.mem_singleton] at hg; subst hg; rfl,
   rfl,
   decompress_fail_fast (fun g => if g = "b" then Except.error "bad header"
      else Except.ok ()) ["a"] ["c"] "b" "bad header"
     (by intro g hg; simp only [List.mem_singleton] at hg; subst hg; rfl)
     rfl⟩

/-- The combined per-file callback fraction of `decompress_files_command`
(gui.rs:179): `((index + file_progress / 100) / total_files) * 100`, with the
`f64` arithmetic modelled by exact rationals. -/
def overallProgress (total index : Nat) (file_fraction : ℚ) : ℚ :=
  (((index : ℚ) + file_fraction / 100) / (total : ℚ)) * 100

/-- The snapshot emitted before a file starts (gui.rs:163):
`(index / total_files) * 100`. -/
def batchSnapshot (total index : Nat) : ℚ :=
  ((index : ℚ) / (total : ℚ)) * 100

/-- All progress values emitted while the file at 0-based `index` is handled:
the pre-file snapshot, then one combined value per codec callback, where `t`
lists the `file_progress` fractions the codec reports in order. -/
def fileEmits (total index : Nat) (t : List ℚ) : List ℚ :=
  batchSnapshot total index :: t.map (overallProgress total index)

/-- Progress values emitted by the per-file loop from a given index on. -/
def emitsFrom (total : Nat) : Nat → List (List ℚ) → List ℚ
  | _, [] => []
  | index, t :: ts => fileEmits total index t ++ emitsFrom total (index + 1) ts

/-- The full emission sequence of `decompress_files_command` over a batch:
the per-file loop followed by the final 100% snapshot (gui.rs:200-207). -/
def decompressEmits (traces : List (List ℚ)) : List ℚ :=
  emitsFrom traces.length 0 traces ++ [100]

lemma overallProgress_mono (total index : Nat) {a b : ℚ} (h : a ≤ b) :
    overallProgress total index a ≤ overallProgress total index b := by
  unfold overallProgress
  have h100 : (0 : ℚ) ≤ 100 := by norm_num
  have ht : (0 : ℚ) ≤ (total : ℚ) := Nat.cast_nonneg total
  gcongr

lemma batchSnapshot_eq_overall (total index : Nat) :
    batchSnapshot total index = overallProgress total index 0 := by
  simp [batchSnapshot, overallProgress]

lemma overallProgress_le_next (total index : Nat) {ff : ℚ} (h : ff ≤ 100) :
    overallProgress total index ff ≤ batchSnapshot total (index + 1) := by
  unfold overallProgress batchSnapshot
  have ht : (0 : ℚ) ≤ (total : ℚ) := Nat.cast_nonneg total
  have hstep : (index : ℚ) + ff / 100 ≤ ((index + 1 : Nat) : ℚ) := by
    push_cast
    have : ff / 100 ≤ 1 := by
      rw [div_le_one (by norm_num : (0:ℚ) < 100)]; exact h
    linarith
  gcongr

lemma batchSnapshot_mono (total : Nat) {i j : Nat} (h : i ≤ j) :
    batchSnapshot total i ≤ batchSnapshot total j := by
  unfold batchSnapshot
  have ht : (0 : ℚ) ≤ (total : ℚ) := Nat.cast_nonneg total
  have : (i : ℚ) ≤ (j : ℚ) := by exact_mod_cast h
  gcongr

lemma batchSnapshot_le_100 (total i : Nat) (htotal : 0 < total) (h : i ≤ total) :
    batchSnapshot total i ≤ 100 := by
  unfold batchSnapshot
  have ht : (0 : ℚ) < (total : ℚ) := by exact_mod_cast htotal
  have h1 : (i : ℚ) / (total : ℚ) ≤ 1 := by
    rw [div_le_one ht]; exact_mod_cast h
  nlinarith

lemma emitsFrom_chain (total : Nat) (htotal : 0 < total) :
    ∀ (ts : List (List ℚ)) (index : Nat), index + ts.length ≤ total →
      (∀ t ∈ ts, List.Chain' (· ≤ ·) t) →
      (∀ t ∈ ts, ∀ x ∈ t, 0 ≤ x ∧ x ≤ 100) →
      List.Chain' (· ≤ ·) (emitsFrom total index ts ++ [100]) := by
  intro ts
  induction ts with
  | nil =>
    intro index _ _ _
    simp [emitsFrom]
  | cons t ts ih =>
    intro index hlen hchain hbound
    have hidx : index + 1 + ts.length ≤ total := by
      simp only [List.length_cons] at hlen; omega
    have hi1 : index + 1 ≤ total := by omega
    have ht_chain : List.Chain' (· ≤ ·) t := hchain t (List.mem_cons_self t ts)
    have ht_bound : ∀ x ∈ t, 0 ≤ x ∧ x ≤ 100 := hbound t (List.mem_cons_self t ts)
    have hrest := ih (index + 1) hidx
      (fun u hu => hchain u (List.mem_cons_of_mem t hu))
      (fun u hu => hbound u (List.mem_cons_of_mem t hu))
    simp only [emitsFrom, List.append_assoc]
    refine List.Chain'.append ?_ hrest ?_
    · -- the emissions of one file are chained
      refine List.Chain'.cons' ?_ ?_
      · exact List.chain'_map_of_chain' _ (fun a b hab => overallProgress_mono total index hab)
          ht_chain
      · intro y hy
        rw [List.head?_map] at hy
        rcases Option.map_eq_some'.mp hy with ⟨x0, hx0, rfl⟩
        have hx0m : x0 ∈ t := List.mem_of_mem_head? hx0
        rw [batchSnapshot_eq_overall]
        exact overallProgress_mono total index (ht_bound x0 hx0m).1
    · -- junction: the last emission of this file is below the next head
      intro x hx y hy
      have hx_le : x ≤ batchSnapshot total (index + 1) := by
        rcases List.eq_nil_or_concat t with rfl | ⟨q, b, rfl⟩
        · simp only [fileEmits, List.map_nil, List.getLast?_singleton,
            Option.mem_def, Option.some.injEq] at hx
          subst hx
          exact batchSnapshot_mono total (Nat.le_succ index)
        · simp only [List.concat_eq_append] at hx ht_bound
          have hb : b ∈ q ++ [b] := by simp
          have hb100 : b ≤ 100 := (ht_bound b hb).2
          simp only [fileEmits, List.map_append, List.map_cons, List.map_nil] at hx
          rw [show batchSnapshot total index :: (q.map (overallProgress total index) ++
              [overallProgress total index b]) =
              (batchSnapshot total index :: q.map (overallProgress total index)) ++
              [overallProgress total index b] from rfl,
            List.getLast?_concat] at hx
          simp only [Option.mem_def, Option.some.injEq] at hx
          subst hx
          exact overallProgress_le_next total index hb100
      have hy_eq : y = batchSnapshot total (index + 1) ∨ y = 100 := by
        cases ts with
        | nil =>
          simp only [emitsFrom, List.nil_append, List.head?_cons,
            Option.mem_def, Option.some.injEq] at hy
          right; exact hy.symm
        | cons u us =>
          simp only [emitsFrom, fileEmits, List.cons_append, List.head?_cons,
            Option.mem_def, Option.some.injEq] at hy
          left; exact hy.symm
      rcases hy_eq with rfl | rfl
      · exact hx_le
      · exact le_trans hx_le (batchSnapshot_le_100 total (index + 1) htotal hi1)

/-- C3: over a decompress batch whose codec reports, for each file in order, a
non-decreasing sequence of per-file fractions in `[0, 100]`, the overall
progress values emitted (the pre-file snapshot `(index / total) * 100`
followed by `((index + file_fraction / 100) / total) * 100` per callback, and
the final 100% snapshot) form a monotonically non-decreasing sequence; and for
`total = 3`, completing file 1 (`file_fraction = 100`) emits `100 / 3` while
mid-file 2 at `file_fraction = 50` emits `50`. -/
theorem decompress_progress_monotone (traces : List (List ℚ))
    (htotal : 0 < traces.length)
    (hchain : ∀ t ∈ traces, List.Chain' (· ≤ ·) t)
    (hbound : ∀ t ∈ traces, ∀ x ∈ t, 0 ≤ x ∧ x ≤ 100) :
    List.Chain' (· ≤ ·) (decompressEmits traces) ∧
    overallProgress 3 0 100 = 100 / 3 ∧
    overallProgress 3 1 50 = 50 := by
  refine ⟨?_, by norm_num [overallProgress], by norm_num [overallProgress]⟩
  exact emitsFrom_chain traces.length htotal traces 0 (by omega) hchain hbound

/-- Witness for C3 at a concrete three-file batch. -/
theorem decompress_progress_monotone_witness :
    (0 < ([[100], [50], [100]] : List (List ℚ)).length) ∧
    List.Chain' (· ≤ ·) (decompressEmits [[100], [50], [100]]) :=
  ⟨by norm_num,
    (decompress_progress_monotone [[100], [50], [100]] (by norm_num)
      (by intro t ht; simp only [List.mem_cons, List.not_mem_nil, or_false] at ht
          rcases ht with rfl | rfl | rfl <;> simp)
      (by intro t ht x hx
          simp only [List.mem_cons, List.not_mem_nil, or_false] at ht
          rcases ht with rfl | rfl | rfl <;>
            simp only [List.mem_singleton] at hx <;> subst hx <;> norm_num)).1⟩

/-- Fuel-driven little-endian decimal digits of a natural number (the fuel
bounds the recursion; `decDigits` supplies enough). -/
def decDigitsF : Nat → Nat → List Nat
  | 0, _ => []
  | _ + 1, 0 => []
  | fuel + 1, n + 1 => (n + 1) % 10 :: decDigitsF fuel ((n + 1) / 10)

/-- Little-endian decimal digits of a natural number. -/
def decDigits (n : Nat) : List Nat := decDigitsF n n

/-- Evaluate a little-endian decimal digit list. -/
def fromDecDigits : List Nat → Nat
  | [] => 0
  | d :: ds => d + 10 * fromDecDigits ds

/-- The character for one decimal digit. -/
def digitChar (d : Nat) : Char := Char.ofNat (48 + d)

/-- Decode one decimal digit character. -/
def charToDigit (c : Char) : Nat := c.toNat - 48

/-- Model of Rust's decimal `Display` for `usize` as used by
`format!("{} ({})", base_name, counter)` at gui.rs:621. -/
def natToDec (n : Nat) : String :=
  if n = 0 then "0" else String.mk ((decDigits n).reverse.map digitChar)

lemma fromDecDigits_decDigitsF : ∀ (fuel n : Nat), n ≤ fuel →
    fromDecDigits (decDigitsF fuel n) = n := by
  intro fuel
  induction fuel with
  | zero => intro n hn; interval_cases n; rfl
  | succ fuel ih =>
    intro n hn
    cases n with
    | zero => rfl
    | succ m =>
      have hdiv : (m + 1) / 10 ≤ fuel := by
        have := Nat.div_le_self (m + 1) 10
        have h2 : (m + 1) / 10 < m + 1 := Nat.div_lt_self (Nat.succ_pos m) (by omega)
        omega
      simp only [decDigitsF, fromDecDigits, ih _ hdiv]
      omega

lemma decDigits_inj {n m : Nat} (h : decDigits n = decDigits m) : n = m := by
  have hn := fromDecDigits_decDigitsF n n (le_refl n)
  have hm := fromDecDigits_decDigitsF m m (le_refl m)
  rw [← hn, ← hm]
  unfold decDigits at h
  rw [h]

lemma decDigitsF_lt_ten : ∀ (fuel n : Nat), ∀ d ∈ decDigitsF fuel n, d < 10 := by
  intro fuel
  induction fuel with
  | zero => intro n d hd; simp [decDigitsF] at hd
  | succ fuel ih =>
    intro n d hd
    cases n with
    | zero => simp [decDigitsF] at hd
    | succ m =>
      simp only [decDigitsF, List.mem_cons] at hd
      rcases hd with rfl | hd
      · exact Nat.mod_lt _ (by omega)
      · exact ih _ d hd

lemma charToDigit_digitChar {d : Nat} (h : d < 10) :
    charToDigit (digitChar d) = d := by
  interval_cases d <;> rfl

lemma map_digit_roundtrip : ∀ (l : List Nat), (∀ d ∈ l, d < 10) →
    l.map (fun d => charToDigit (digitChar d)) = l := by
  intro l
  induction l with
  | nil => intro _; rfl
  | cons d l ih =>
    intro h
    simp only [List.map_cons]
    rw [charToDigit_digitChar (h d (List.mem_cons_self d l)),
      ih (fun x hx => h x (List.mem_cons_of_mem d hx))]

lemma natToDec_inj {n m : Nat} (hn : n ≠ 0) (hm : m ≠ 0)
    (h : natToDec n = natToDec m) : n = m := by
  unfold natToDec at h
  rw [if_neg hn, if_neg hm] at h
  have hdata := congrArg String.data h
  simp only [String.data] at hdata
  have h2 := congrArg (List.map charToDigit) hdata
  rw [List.map_map, List.map_map] at h2
  have r1 : (decDigits n).reverse.map (fun d => charToDigit (digitChar d)) =
      (decDigits n).reverse :=
    map_digit_roundtrip _ (fun d hd => decDigitsF_lt_ten n n d (List.mem_reverse.mp hd))
  have r2 : (decDigits m).reverse.map (fun d => charToDigit (digitChar d)) =
      (decDigits m).reverse :=
    map_digit_roundtrip _ (fun d hd => decDigitsF_lt_ten m m d (List.mem_reverse.mp hd))
  have hrev : (decDigits n).reverse = (decDigits m).reverse := by
    rw [← r1, ← r2]
    exact h2
  exact decDigits_inj (List.reverse_inj.mp hrev)

lemma string_append_left_cancel {s a b : String} (h : s ++ a = s ++ b) : a = b := by
  have hd := congrArg String.data h
  rw [String.data_append, String.data_append] at hd
  exact String.ext (List.append_cancel_left hd)

lemma string_append_right_cancel {s a b : String} (h : a ++ s = b ++ s) : a = b := by
  have hd := congrArg String.data h
  rw [String.data_append, String.data_append] at hd
  exact String.ext (List.append_cancel_right hd)

lemma joinPath_right_cancel {p x y : String} (h : joinPath p x = joinPath p y) :
    x = y := by
  unfold joinPath at h
  split_ifs at h
  · exact h
  · exact string_append_left_cancel h
  · exact string_append_left_cancel h

/-- The name tried at iteration `k` of the collision loop of
`generate_output_dir` (gui.rs:616-622): the bare stem for `k = 1`, the stem
with a parenthesized counter from `k = 2` on. -/
def genCandidate (parent stem : String) (k : Nat) : String :=
  if k = 1 then joinPath parent stem
  else joinPath parent (stem ++ " (" ++ natToDec k ++ ")")

lemma genCandidate_inj (parent stem : String) {j k : Nat}
    (hj : 2 ≤ j) (hk : 2 ≤ k)
    (h : genCandidate parent stem j = genCandidate parent stem k) : j = k := by
  unfold genCandidate at h
  rw [if_neg (by omega), if_neg (by omega)] at h
  have h1 := joinPath_right_cancel h
  have h2 := string_append_right_cancel h1
  have h3 := string_append_left_cancel h2
  exact natToDec_inj (by omega) (by omega) h3

/-- The `while output_dir.exists()` loop of `generate_output_dir`
(gui.rs:616-622), with the filesystem abstracted as the list `fs` of existing
paths and an explicit fuel bound (`generate_output_dir` supplies enough fuel
for the loop's natural termination). -/
def genLoop (fs : List String) (parent stem : String) : Nat → Nat → Option String
  | 0, _ => none
  | fuel + 1, k =>
    if genCandidate parent stem k ∈ fs then genLoop fs parent stem fuel (k + 1)
    else some (genCandidate parent stem k)

/-- Model of `Path::file_name` for Unix-style paths: the portion after the
last separator. -/
def fileName (p : String) : String :=
  String.mk (p.data.reverse.takeWhile (fun c => c ≠ '/')).reverse

/-- Model of `Path::file_stem` (gui.rs:613): the file name up to its last
`.`, or the whole name when the only `.` is the leading one or there is
none. -/
def fileStem (p : String) : String :=
  let n := (fileName p).data
  match n.reverse.dropWhile (fun c => c ≠ '.') with
  | [] => String.mk n
  | _ :: rest => if rest = [] then String.mk n else String.mk rest.reverse

/-- `generate_output_dir` (gui.rs:612-625): candidate names derived from the
source's file stem in its parent directory, counting up until a name not in
`fs` (the existing paths) is found. -/
def generate_output_dir (fs : List String) (file : String) : Option String :=
  genLoop fs (parentOrDot file) (fileStem file) (fs.length + 2) 1

lemma genLoop_none_mem (fs : List String) (parent stem : String) :
    ∀ (fuel k : Nat), genLoop fs parent stem fuel k = none →
      ∀ i < fuel, genCandidate parent stem (k + i) ∈ fs := by
  intro fuel
  induction fuel with
  | zero => intro k _ i hi; omega
  | succ fuel ih =>
    intro k hnone i hi
    unfold genLoop at hnone
    split_ifs at hnone with hmem
    · cases i with
      | zero => simpa using hmem
      | succ i =>
        have := ih (k + 1) hnone i (by omega)
        simpa [show k + 1 + i = k + (i + 1) by omega] using this

lemma genLoop_some_shape (fs : List String) (parent stem : String) :
    ∀ (fuel k : Nat) (p : String), genLoop fs parent stem fuel k = some p →
      p ∉ fs ∧ ∃ m, k ≤ m ∧ p = genCandidate parent stem m := by
  intro fuel
  induction fuel with
  | zero => intro k p hp; simp [genLoop] at hp
  | succ fuel ih =>
    intro k p hp
    unfold genLoop at hp
    split_ifs at hp with hmem
    · rcases ih (k + 1) p hp with ⟨hnot, m, hm, rfl⟩
      exact ⟨hnot, m, by omega, rfl⟩
    · rcases Option.some.injEq .. ▸ hp with rfl
      exact ⟨hmem, k, le_refl k, rfl⟩

lemma generate_output_dir_total (fs : List String) (file : String) :
    generate_output_dir fs file ≠ none := by
  intro hnone
  unfold generate_output_dir at hnone
  have hall := genLoop_none_mem fs (parentOrDot file) (fileStem file)
    (fs.length + 2) 1 hnone
  have hmem : ∀ i < fs.length + 1,
      genCandidate (parentOrDot file) (fileStem file) (i + 2) ∈ fs := by
    intro i hi
    have := hall (i + 1) (by omega)
    simpa [show 1 + (i + 1) = i + 2 by omega] using this
  set F : Finset String := (Finset.range (fs.length + 1)).image
    (fun i => genCandidate (parentOrDot file) (fileStem file) (i + 2)) with hF
  have hsub : F ⊆ fs.toFinset := by
    intro x hx
    rw [hF, Finset.mem_image] at hx
    rcases hx with ⟨i, hi, rfl⟩
    rw [Finset.mem_range] at hi
    exact List.mem_toFinset.mpr (hmem i hi)
  have hcard : F.card = fs.length + 1 := by
    rw [hF]
    rw [Finset.card_image_of_injOn, Finset.card_range]
    intro a _ b _ hab
    have := genCandidate_inj (parentOrDot file) (fileStem file)
      (by omega) (by omega) hab
    omega
  have hle : F.card ≤ fs.toFinset.card := Finset.card_le_card hsub
  have hlen : fs.toFinset.card ≤ fs.length := fs.toFinset_card_le
  omega

/-- C5: for every source path and (finite) filesystem state, the output
directory resolver returns a path not existing at call time, formed from the
source's file stem in the source's parent directory — either the bare stem or
the stem with a parenthesized counter at least 2; in particular with `foo`
existing, `foo.zip` resolves to `foo (2)`, and with `foo` and `foo (2)` both
existing it resolves to `foo (3)`. -/
theorem output_dir_avoids_collisions (fs : List String) (file : String) :
    (∃ p, generate_output_dir fs file = some p ∧ p ∉ fs ∧
      (p = joinPath (parentOrDot file) (fileStem file) ∨
       ∃ k, 2 ≤ k ∧
         p = joinPath (parentOrDot file)
               (fileStem file ++ " (" ++ natToDec k ++ ")"))) ∧
    generate_output_dir ["foo"] "foo.zip" = some "foo (2)" ∧
    generate_output_dir ["foo", "foo (2)"] "foo.zip" = some "foo (3)" := by
  refine ⟨?_, by decide, by decide⟩
  cases hgen : generate_output_dir fs file with
  | none => exact absurd hgen (generate_output_dir_total fs file)
  | some p =>
    refine ⟨p, rfl, ?_⟩
    unfold generate_output_dir at hgen
    rcases genLoop_some_shape fs (parentOrDot file) (fileStem file)
      (fs.length + 2) 1 p hgen with ⟨hnot, m, hm, rfl⟩
    refine ⟨hnot, ?_⟩
    by_cases h1 : m = 1
    · left; rw [genCandidate, if_pos h1]
    · right
      exact ⟨m, by omega, by rw [genCandidate, if_neg h1]⟩

end TauZip
